import Mathlib

/- Verification development for the akda PDF library manager.
   Shallow embedding of src-tauri/src/pdf.rs and src-tauri/src/collections.rs:
   the catalog (PdfEntry list in pdfs.json), the derived-artifact store
   (dims.json / thumbs.json / strokes.json), the extraction pipeline
   (extract_pdf_data), bookmarks and collections.  File-system reads and
   writes are modelled by explicit state; pdfium is modelled as an oracle
   giving each page a size and a render outcome; f32 page sizes are modelled
   as exact rationals. -/

namespace Akda

/- Data model: strokes (pdf.rs, Stroke / StrokePath / DrawingToolType). -/

inductive DrawingToolType where
  | pen
  | highlighter
  | eraser
deriving DecidableEq

structure StrokePath where
  x : ℚ
  y : ℚ
deriving DecidableEq

structure Stroke where
  tool : DrawingToolType
  color : String
  opacity : ℚ
  thickness : Nat
  path : List StrokePath
deriving DecidableEq

/- Data model: per-page dimensions (pdf.rs, Dimensions). -/

structure Dimensions where
  height : ℚ
  width : ℚ
deriving DecidableEq

/- Rust str::parse::<u32>: optional leading plus sign, then one or more
   decimal digits, value below 2^32. -/

def parse_u32 (s : String) : Option Nat :=
  let cs0 := s.toList
  let cs := match cs0 with
    | c :: rest => if c = '+' then rest else cs0
    | [] => []
  if cs.isEmpty then none
  else if cs.all Char.isDigit then
    let v := cs.foldl (fun a c => a * 10 + (c.toNat - 48)) 0
    if v < 4294967296 then some v else none
  else none

/- pdf.rs string_key_to_u32: deserialize a string-keyed JSON object into a
   u32-keyed map; a key that does not parse as u32 is an error. -/

def string_key_to_u32 {V : Type} : List (String × V) → Except String (List (Nat × V))
  | [] => Except.ok []
  | (k, v) :: rest =>
    match parse_u32 k with
    | none => Except.error ("Invalid key: " ++ k)
    | some n =>
      match string_key_to_u32 rest with
      | Except.ok tl => Except.ok ((n, v) :: tl)
      | Except.error e => Except.error e

/- A persisted artifact file as seen by serde_json: blank (exists but empty,
   not valid JSON), a JSON object with string keys and well-formed values,
   or otherwise invalid. -/

inductive FileData (V : Type) where
  | blank
  | obj (entries : List (String × V))
  | invalid

/- serde_json::from_str on the whole file, for the u32-keyed map types
   (PdfPagesDimensions, PdfPagesThumbnails, PdfStrokes). -/

def decode_u32_map {V : Type} (file : FileData V) : Except String (List (Nat × V)) :=
  match file with
  | FileData.blank => Except.error ("EOF while parsing a value")
  | FileData.invalid => Except.error ("invalid JSON")
  | FileData.obj entries => string_key_to_u32 entries

/- serde_json::to_string_pretty of a u32-keyed map: keys become their decimal
   string form. -/

def serialize_u32_map {V : Type} (m : List (Nat × V)) : FileData V :=
  FileData.obj (m.map (fun kv => (Nat.repr kv.1, kv.2)))

/- pdf.rs load_pdf, dims part: reads dims.json with fs::read_to_string and
   deserializes, with no existence check (a missing file is a read error). -/

def load_pdf_dims (file : Option (FileData Dimensions)) :
    Except String (List (Nat × Dimensions)) :=
  match file with
  | none => Except.error ("No such file or directory")
  | some f => decode_u32_map f

/- pdf.rs load_pdf_strokes: if the file exists, read and deserialize it,
   otherwise return the empty map. -/

def load_pdf_strokes (file : Option (FileData (List Stroke))) :
    Except String (List (Nat × List Stroke)) :=
  match file with
  | none => Except.ok []
  | some f => decode_u32_map f

/- pdf.rs load_thumbnails: if the file exists, read and deserialize it,
   otherwise return the empty map. -/

def load_thumbnails (file : Option (FileData String)) :
    Except String (List (Nat × String)) :=
  match file with
  | none => Except.ok []
  | some f => decode_u32_map f

/- Bookmarks (pdf.rs, PdfBookmark and the bookmark commands). -/

structure PdfBookmark where
  page_number : Nat
  label : String
deriving DecidableEq

/- Rust label.trim().is_empty(). -/

def trim_empty (s : String) : Bool := s.toList.all Char.isWhitespace

def add_pdf_bookmark (bookmarks : List PdfBookmark) (page_number : Nat)
    (label : String) : Except String (List PdfBookmark) :=
  if trim_empty label then Except.error ("Label cannot be empty")
  else Except.ok (bookmarks ++ [{ page_number := page_number, label := label }])

/- iter_mut().find(..).map(set label) : replace the label of the first
   bookmark with the given page number. -/

def setFirstLabel : List PdfBookmark → Nat → String → List PdfBookmark
  | [], _, _ => []
  | b :: rest, page, lbl =>
    if b.page_number = page then { b with label := lbl } :: rest
    else b :: setFirstLabel rest page lbl

def update_pdf_bookmark (bookmarks : List PdfBookmark) (label : Option String)
    (page_number : Nat) : Except String (List PdfBookmark) :=
  if bookmarks.any (fun b => b.page_number == page_number) then
    match label with
    | some lbl =>
      if trim_empty lbl then Except.error ("Label cannot be empty")
      else Except.ok (setFirstLabel bookmarks page_number lbl)
    | none => Except.ok bookmarks
  else Except.error ("Bookmark with id " ++ Nat.repr page_number ++ " not found")

def delete_pdf_bookmark (bookmarks : List PdfBookmark) (page_number : Nat) :
    Except String (List PdfBookmark) :=
  if (bookmarks.filter (fun b => b.page_number != page_number)).length = bookmarks.length then
    Except.error ("Bookmark with id " ++ Nat.repr page_number ++ " not found")
  else Except.ok (bookmarks.filter (fun b => b.page_number != page_number))

def UniquePages (bookmarks : List PdfBookmark) : Prop :=
  List.Pairwise (fun a b => a.page_number ≠ b.page_number) bookmarks

/- Update and delete calls, as state transformers that leave the store
   unchanged on error (the file is only rewritten on the success path). -/

inductive BookmarkMutOp where
  | upd (label : Option String) (page : Nat)
  | del (page : Nat)

def stepBookmarks (bookmarks : List PdfBookmark) : BookmarkMutOp → List PdfBookmark
  | BookmarkMutOp.upd lbl page =>
    match update_pdf_bookmark bookmarks lbl page with
    | Except.ok r => r
    | Except.error _ => bookmarks
  | BookmarkMutOp.del page =>
    match delete_pdf_bookmark bookmarks page with
    | Except.ok r => r
    | Except.error _ => bookmarks

/- Collections (collections.rs). pdf_ids is a HashMap<String, bool>,
   modelled as a key-value list; membership is key presence. -/

structure Collection where
  id : String
  name : String
  color : String
  pdf_ids : List (String × Bool)
deriving DecidableEq

def containsKey (m : List (String × Bool)) (k : String) : Bool :=
  m.any (fun kv => kv.1 == k)

def removeKey (m : List (String × Bool)) (k : String) : List (String × Bool) :=
  m.filter (fun kv => kv.1 != k)

/- collections.rs toggle_pdf_in_collection, inner mutation of one
   collection's pdf_ids map. -/

def toggle_pdf_ids (m : List (String × Bool)) (pdf_id : String) :
    List (String × Bool) × Bool :=
  match containsKey m pdf_id with
  | true => (removeKey m pdf_id, false)
  | false => (m ++ [(pdf_id, true)], true)

/- collections.iter_mut().find(|c| c.id == collection_id). -/

def findCollection : List Collection → String → Option Collection
  | [], _ => none
  | c :: rest, cid => if c.id == cid then some c else findCollection rest cid

def updateFirstCollection : List Collection → String → (Collection → Collection) → List Collection
  | [], _, _ => []
  | c :: rest, cid, f =>
    if c.id == cid then f c :: rest else c :: updateFirstCollection rest cid f

/- The in-place mutation performed on the found collection. -/

def togglePdfUpd (pdf_id : String) (c0 : Collection) : Collection :=
  { c0 with pdf_ids := (toggle_pdf_ids c0.pdf_ids pdf_id).1 }

def toggle_pdf_in_collection (cols : List Collection) (collection_id pdf_id : String) :
    Except String (List Collection × Bool) :=
  match findCollection cols collection_id with
  | none => Except.error ("Collection not found")
  | some c =>
    Except.ok
      (updateFirstCollection cols collection_id (togglePdfUpd pdf_id),
       (toggle_pdf_ids c.pdf_ids pdf_id).2)

/- Helper lemmas. -/

lemma setFirstLabel_map_page (l : List PdfBookmark) (page : Nat) (lbl : String) :
    (setFirstLabel l page lbl).map PdfBookmark.page_number = l.map PdfBookmark.page_number := by
  induction l with
  | nil => rfl
  | cons b rest ih =>
    by_cases h : b.page_number = page
    · simp [setFirstLabel, h]
    · simp [setFirstLabel, h, ih]

lemma uniquePages_iff (l : List PdfBookmark) :
    UniquePages l ↔ (l.map PdfBookmark.page_number).Pairwise (· ≠ ·) := by
  rw [UniquePages, List.pairwise_map]

lemma update_pdf_bookmark_ok (bms : List PdfBookmark) (lbl : Option String)
    (page : Nat) (r : List PdfBookmark)
    (h : update_pdf_bookmark bms lbl page = Except.ok r) :
    r = bms ∨ ∃ s, r = setFirstLabel bms page s := by
  unfold update_pdf_bookmark at h
  split at h
  · cases lbl with
    | some s =>
      simp only at h
      split at h
      · cases h
      · exact Or.inr ⟨s, (Except.ok.inj h).symm⟩
    | none => exact Or.inl (Except.ok.inj h).symm
  · cases h

lemma delete_pdf_bookmark_ok (bms : List PdfBookmark) (page : Nat)
    (r : List PdfBookmark) (h : delete_pdf_bookmark bms page = Except.ok r) :
    r = bms.filter (fun b => b.page_number != page) := by
  unfold delete_pdf_bookmark at h
  split at h
  · cases h
  · exact (Except.ok.inj h).symm

lemma stepBookmarks_unique (bms : List PdfBookmark) (op : BookmarkMutOp)
    (h : UniquePages bms) : UniquePages (stepBookmarks bms op) := by
  cases op with
  | upd lbl page =>
    simp only [stepBookmarks]
    cases hres : update_pdf_bookmark bms lbl page with
    | error e => exact h
    | ok r =>
      rcases update_pdf_bookmark_ok bms lbl page r hres with h1 | ⟨s, h1⟩
      · rw [h1]; exact h
      · rw [h1, uniquePages_iff, setFirstLabel_map_page]
        exact (uniquePages_iff bms).mp h
  | del page =>
    simp only [stepBookmarks]
    cases hres : delete_pdf_bookmark bms page with
    | error e => exact h
    | ok r =>
      rw [delete_pdf_bookmark_ok bms page r hres]
      exact h.sublist (List.filter_sublist bms)

/-- Claim C7 (corrected part), counterexample: add_pdf_bookmark never checks
for an existing bookmark on the same page, so two adds with page number 1
leave two stored bookmarks sharing that page number. -/
theorem add_bookmark_duplicate_page_cex :
    add_pdf_bookmark [] 1 ("a") = Except.ok [⟨1, ("a")⟩]
    ∧ add_pdf_bookmark [⟨1, ("a")⟩] 1 ("b") = Except.ok [⟨1, ("a")⟩, ⟨1, ("b")⟩]
    ∧ ¬ UniquePages [⟨1, ("a")⟩, ⟨1, ("b")⟩] := by
  refine ⟨rfl, rfl, ?_⟩
  unfold UniquePages
  decide

/-- Claim C7 (amended): add_pdf_bookmark may create several bookmarks with
the same page number; but update_pdf_bookmark and delete_pdf_bookmark
preserve page-number uniqueness, so after any sequence of update and delete
calls on a store whose page numbers are pairwise distinct, no two stored
bookmarks share a page number. -/
theorem bookmarks_unique_pages_preserved (bookmarks : List PdfBookmark)
    (ops : List BookmarkMutOp) (h : UniquePages bookmarks) :
    UniquePages (ops.foldl stepBookmarks bookmarks) := by
  induction ops generalizing bookmarks with
  | nil => exact h
  | cons op rest ih => exact ih _ (stepBookmarks_unique _ _ h)

/-- Witness for the amended claim C7 theorem at a concrete store and op
sequence. -/
theorem bookmarks_unique_pages_preserved_witness :
    UniquePages [⟨1, ("a")⟩, ⟨2, ("b")⟩]
    ∧ UniquePages
        ([BookmarkMutOp.upd (some ("c")) 1, BookmarkMutOp.del 2].foldl stepBookmarks
          [⟨1, ("a")⟩, ⟨2, ("b")⟩]) :=
  ⟨by unfold UniquePages; decide,
   bookmarks_unique_pages_preserved _ _ (by unfold UniquePages; decide)⟩

/-- Claim C4 counterexample: the dimensions loader used by load_pdf errors
when dims.json does not exist (fs::read_to_string on a missing file), and
the strokes and thumbnails loaders error when the file exists but is empty
(serde_json cannot parse an empty string) — not the empty mapping the claim
requires. -/
theorem load_missing_or_blank_cex :
    load_pdf_dims none = Except.error ("No such file or directory")
    ∧ load_pdf_strokes (some FileData.blank) = Except.error ("EOF while parsing a value")
    ∧ load_thumbnails (some FileData.blank) = Except.error ("EOF while parsing a value") :=
  ⟨rfl, rfl, rfl⟩

/-- Claim C4 (amended): load_pdf_strokes and load_thumbnails return the
empty mapping when the artifact file does not exist; but the dimensions
loader used by load_pdf returns an error when its file is missing, and all
three loaders return an error when the file exists but is empty. -/
theorem load_not_extracted_amended :
    load_pdf_strokes none = Except.ok []
    ∧ load_thumbnails none = Except.ok []
    ∧ (∃ e, load_pdf_dims none = Except.error e)
    ∧ (∃ e, load_pdf_dims (some FileData.blank) = Except.error e)
    ∧ (∃ e, load_pdf_strokes (some FileData.blank) = Except.error e)
    ∧ (∃ e, load_thumbnails (some FileData.blank) = Except.error e) :=
  ⟨rfl, rfl, ⟨_, rfl⟩, ⟨_, rfl⟩, ⟨_, rfl⟩, ⟨_, rfl⟩⟩

/-- Claim C8: stroke persistence round-trips — serializing a PageStrokes
mapping with entries for pages 2 and 5 and deserializing it yields an equal
mapping; serializing the empty mapping and reading it back yields the empty
mapping; and loading when no strokes file exists yields the empty mapping. -/
theorem strokes_roundtrip (s2 s5 : List Stroke) :
    load_pdf_strokes (some (serialize_u32_map [(2, s2), (5, s5)])) = Except.ok [(2, s2), (5, s5)]
    ∧ load_pdf_strokes (some (serialize_u32_map ([] : List (Nat × List Stroke)))) = Except.ok []
    ∧ load_pdf_strokes none = Except.ok [] := by
  refine ⟨?_, rfl, rfl⟩
  simp only [serialize_u32_map, List.map]
  rfl

/- Lemmas for toggle_pdf_in_collection. -/

lemma containsKey_removeKey (m : List (String × Bool)) (k : String) :
    containsKey (removeKey m k) k = false := by
  rw [containsKey, removeKey, List.any_eq_false]
  intro kv hkv
  have := List.of_mem_filter hkv
  simpa using this

lemma containsKey_toggle (m : List (String × Bool)) (k : String) :
    containsKey (toggle_pdf_ids m k).1 k = !(containsKey m k) := by
  cases h : containsKey m k with
  | true => simp [toggle_pdf_ids, h, containsKey_removeKey]
  | false =>
    simp only [toggle_pdf_ids, h, Bool.not_false]
    rw [containsKey, List.any_append]
    rw [containsKey] at h
    simp [h]

lemma toggle_snd (m : List (String × Bool)) (k : String) :
    (toggle_pdf_ids m k).2 = !(containsKey m k) := by
  cases h : containsKey m k with
  | true => simp [toggle_pdf_ids, h]
  | false => simp [toggle_pdf_ids, h]

lemma findCollection_updateFirst (cols : List Collection) (cid : String)
    (f : Collection → Collection) (c : Collection)
    (h : findCollection cols cid = some c) (hf : (f c).id = c.id) :
    findCollection (updateFirstCollection cols cid f) cid = some (f c) := by
  induction cols with
  | nil => cases h
  | cons c0 rest ih =>
    by_cases h0 : (c0.id == cid) = true
    · rw [findCollection, if_pos h0] at h
      have hc : c0 = c := Option.some.inj h
      subst hc
      have hp2 : ((f c0).id == cid) = true := by
        rw [hf]; exact h0
      rw [updateFirstCollection, if_pos h0, findCollection, if_pos hp2]
    · rw [findCollection, if_neg h0] at h
      rw [updateFirstCollection, if_neg h0, findCollection, if_neg h0]
      exact ih h

/-- Claim C10: toggle_pdf_in_collection returns true exactly when the given
pdf id was not a member of the collection before the call; after the call
the pdf's membership in that collection equals the returned value; and two
consecutive toggles of the same pdf on the same collection restore the
original membership. -/
theorem toggle_pdf_membership (cols : List Collection) (cid pdf : String)
    (c : Collection) (h : findCollection cols cid = some c) :
    ∃ cols2, toggle_pdf_in_collection cols cid pdf
        = Except.ok (cols2, !(containsKey c.pdf_ids pdf))
    ∧ ∃ c2, findCollection cols2 cid = some c2
      ∧ containsKey c2.pdf_ids pdf = !(containsKey c.pdf_ids pdf)
      ∧ ∃ cols3, toggle_pdf_in_collection cols2 cid pdf
            = Except.ok (cols3, containsKey c.pdf_ids pdf)
        ∧ ∃ c3, findCollection cols3 cid = some c3
          ∧ containsKey c3.pdf_ids pdf = containsKey c.pdf_ids pdf := by
  have hf : ∀ c0, (togglePdfUpd pdf c0).id = c0.id := fun c0 => rfl
  have hfind2 : findCollection (updateFirstCollection cols cid (togglePdfUpd pdf)) cid
      = some (togglePdfUpd pdf c) :=
    findCollection_updateFirst cols cid (togglePdfUpd pdf) c h (hf c)
  refine ⟨updateFirstCollection cols cid (togglePdfUpd pdf), ?_, togglePdfUpd pdf c, hfind2,
    ?_, ?_⟩
  · simp only [toggle_pdf_in_collection, h]
    rw [toggle_snd]
  · show containsKey (toggle_pdf_ids c.pdf_ids pdf).1 pdf = !(containsKey c.pdf_ids pdf)
    exact containsKey_toggle c.pdf_ids pdf
  · refine ⟨updateFirstCollection (updateFirstCollection cols cid (togglePdfUpd pdf)) cid
        (togglePdfUpd pdf), ?_,
      togglePdfUpd pdf (togglePdfUpd pdf c),
      findCollection_updateFirst _ cid (togglePdfUpd pdf) _ hfind2 (hf _), ?_⟩
    · simp only [toggle_pdf_in_collection, hfind2]
      rw [toggle_snd]
      show Except.ok (_, !(containsKey (toggle_pdf_ids c.pdf_ids pdf).1 pdf))
        = Except.ok (_, containsKey c.pdf_ids pdf)
      rw [containsKey_toggle, Bool.not_not]
    · show containsKey (toggle_pdf_ids (togglePdfUpd pdf c).pdf_ids pdf).1 pdf
        = containsKey c.pdf_ids pdf
      rw [containsKey_toggle]
      show (!(containsKey (toggle_pdf_ids c.pdf_ids pdf).1 pdf)) = containsKey c.pdf_ids pdf
      rw [containsKey_toggle, Bool.not_not]

/-- Witness for the claim C10 theorem: a catalog with one collection with an
empty membership map; toggling pdf p twice returns true then false and
restores non-membership. -/
theorem toggle_pdf_membership_witness :
    findCollection [⟨("k"), ("n"), ("x"), []⟩] ("k") = some ⟨("k"), ("n"), ("x"), []⟩
    ∧ ∃ cols2, toggle_pdf_in_collection [⟨("k"), ("n"), ("x"), []⟩] ("k") ("p")
          = Except.ok (cols2, true)
      ∧ ∃ c2, findCollection cols2 ("k") = some c2
        ∧ containsKey c2.pdf_ids ("p") = true
        ∧ ∃ cols3, toggle_pdf_in_collection cols2 ("k") ("p") = Except.ok (cols3, false)
          ∧ ∃ c3, findCollection cols3 ("k") = some c3
            ∧ containsKey c3.pdf_ids ("p") = false :=
  ⟨rfl,
   toggle_pdf_membership [⟨("k"), ("n"), ("x"), []⟩] ("k") ("p") ⟨("k"), ("n"), ("x"), []⟩ rfl⟩

/- The catalog (pdf.rs, PdfEntry and pdfs.json). -/

structure PdfEntry where
  id : Nat
  original_path : String
  clone_path : String
  cover_path : String
  file_name : String
deriving DecidableEq

instance : Inhabited PdfEntry := ⟨⟨0, (""), (""), (""), ("")⟩⟩

/- pdf.rs register_pdf: the new id is pdfs.last().id + 1, or 1 for an empty
   catalog. -/

def latest_id (pdfs : List PdfEntry) : Nat :=
  match pdfs.getLast? with
  | some pdf_entry => pdf_entry.id + 1
  | none => 1

/- pdf.rs register_pdf, catalog part: push the new entry and save.  The
   path strings computed from the app-data directory and the timestamp are
   passed in. -/

def register_pdf (pdfs : List PdfEntry) (pdf_path clone_path cover_path file_name : String) :
    List PdfEntry :=
  pdfs ++ [⟨latest_id pdfs, pdf_path, clone_path, cover_path, file_name⟩]

/- Rust slice binary_search_by on the id column (comparing element id to the
   target), written with explicit fuel so that it evaluates; the fuel is
   sufficient whenever it is at least right - left. -/

def bsGo (l : List Nat) (target : Nat) : Nat → Nat → Nat → Option Nat
  | 0, _, _ => none
  | fuel + 1, left, right =>
    if left < right then
      if l.getD (left + (right - left) / 2) 0 < target then
        bsGo l target fuel (left + (right - left) / 2 + 1) right
      else if target < l.getD (left + (right - left) / 2) 0 then
        bsGo l target fuel left (left + (right - left) / 2)
      else some (left + (right - left) / 2)
    else none

def binary_search_by (l : List Nat) (target : Nat) : Option Nat :=
  bsGo l target (l.length + 1) 0 l.length

/- pdf.rs load_pdf, catalog lookup part (rename_pdf uses the same
   binary_search_by/indexing pattern). -/

def load_pdf_lookup (pdfs : List PdfEntry) (id : Nat) : Except String PdfEntry :=
  match binary_search_by (pdfs.map PdfEntry.id) id with
  | some index => Except.ok (pdfs.getD index default)
  | none => Except.error ("PDF with id " ++ Nat.repr id ++ " not found")

/- pdf.rs remove_pdf: binary search, remove the found index (plus folder
   deletion, outside the catalog state); Ok(false) when absent. -/

def remove_pdf (pdfs : List PdfEntry) (id : Nat) : List PdfEntry × Bool :=
  match binary_search_by (pdfs.map PdfEntry.id) id with
  | some index => (pdfs.eraseIdx index, true)
  | none => (pdfs, false)

/- Catalog histories: any interleaving of registrations and removals
   starting from the empty catalog. -/

inductive CatalogOp where
  | reg (pdf_path clone_path cover_path file_name : String)
  | rm (id : Nat)

def stepCatalog (c : List PdfEntry) : CatalogOp → List PdfEntry
  | CatalogOp.reg p cl cv n => register_pdf c p cl cv n
  | CatalogOp.rm id => (remove_pdf c id).1

def runCatalog (ops : List CatalogOp) : List PdfEntry :=
  ops.foldl stepCatalog []

def ReachableCatalog (c : List PdfEntry) : Prop :=
  ∃ ops, runCatalog ops = c

/- Maximum existing identity, 0 for the empty catalog. -/

def maxId (c : List PdfEntry) : Nat :=
  c.foldr (fun e m => max e.id m) 0

/- The identities handed out by the registrations of an op sequence, in
   order. -/

def assignedIds : List PdfEntry → List CatalogOp → List Nat
  | _, [] => []
  | c, CatalogOp.reg p cl cv n :: rest =>
    latest_id c :: assignedIds (stepCatalog c (CatalogOp.reg p cl cv n)) rest
  | c, CatalogOp.rm id :: rest => assignedIds (stepCatalog c (CatalogOp.rm id)) rest

def IdsSorted (c : List PdfEntry) : Prop :=
  (c.map PdfEntry.id).Pairwise (· < ·)

/- Binary search: soundness and completeness on a strictly sorted list. -/

lemma sorted_getD_lt (l : List Nat) (hs : l.Pairwise (· < ·)) (i j : Nat)
    (hij : i < j) (hj : j < l.length) : l.getD i 0 < l.getD j 0 := by
  have hi : i < l.length := lt_trans hij hj
  rw [List.getD_eq_getElem l 0 hi, List.getD_eq_getElem l 0 hj]
  exact List.pairwise_iff_getElem.mp hs i j hi hj hij

lemma bsGo_sound (l : List Nat) (t : Nat) :
    ∀ fuel left right i, bsGo l t fuel left right = some i →
      left ≤ i ∧ i < right ∧ l.getD i 0 = t := by
  intro fuel
  induction fuel with
  | zero => intro left right i h; cases h
  | succ fuel ih =>
    intro left right i h
    rw [bsGo] at h
    split at h
    · rename_i hlr
      split at h
      · rcases ih _ _ _ h with ⟨h1, h2, h3⟩
        exact ⟨by omega, h2, h3⟩
      · split at h
        · rcases ih _ _ _ h with ⟨h1, h2, h3⟩
          refine ⟨h1, by omega, h3⟩
        · rename_i hx1 hx2
          have hi : i = left + (right - left) / 2 := (Option.some.inj h).symm
          subst hi
          exact ⟨by omega, by omega, by omega⟩
    · cases h

lemma bsGo_complete (l : List Nat) (t : Nat) (hs : l.Pairwise (· < ·)) :
    ∀ fuel left right, right ≤ l.length → right - left ≤ fuel →
      ∀ j, left ≤ j → j < right → l.getD j 0 = t →
      ∃ i, bsGo l t fuel left right = some i := by
  intro fuel
  induction fuel with
  | zero => intro left right hr hf j hj1 hj2 hjt; omega
  | succ fuel ih =>
    intro left right hr hf j hj1 hj2 hjt
    have hlr : left < right := lt_of_le_of_lt hj1 hj2
    have hmidr : left + (right - left) / 2 < right := by omega
    have hjlen : j < l.length := lt_of_lt_of_le hj2 hr
    rw [bsGo, if_pos hlr]
    by_cases h1 : l.getD (left + (right - left) / 2) 0 < t
    · rw [if_pos h1]
      refine ih _ right hr (by omega) j ?_ hj2 hjt
      by_contra hcon
      have hjm : j ≤ left + (right - left) / 2 := by omega
      rcases lt_or_eq_of_le hjm with hlt | heq
      · have := sorted_getD_lt l hs j _ hlt (lt_of_lt_of_le hmidr hr)
        omega
      · rw [heq] at hjt; omega
    · rw [if_neg h1]
      by_cases h2 : t < l.getD (left + (right - left) / 2) 0
      · rw [if_pos h2]
        refine ih left _ (le_trans (le_of_lt hmidr) hr) (by omega) j hj1 ?_ hjt
        by_contra hcon
        have hjm : left + (right - left) / 2 ≤ j := by omega
        rcases lt_or_eq_of_le hjm with hlt | heq
        · have := sorted_getD_lt l hs _ j hlt hjlen
          omega
        · rw [← heq] at hjt; omega
      · rw [if_neg h2]
        exact ⟨_, rfl⟩

lemma binary_search_sound (l : List Nat) (t : Nat) (i : Nat)
    (h : binary_search_by l t = some i) : i < l.length ∧ l.getD i 0 = t := by
  rcases bsGo_sound l t _ _ _ _ h with ⟨_, h2, h3⟩
  exact ⟨h2, h3⟩

lemma binary_search_found (l : List Nat) (t : Nat) (hs : l.Pairwise (· < ·))
    (j : Nat) (hj : j < l.length) (hjt : l.getD j 0 = t) :
    ∃ i, binary_search_by l t = some i :=
  bsGo_complete l t hs (l.length + 1) 0 l.length le_rfl (by omega) j (Nat.zero_le j) hj hjt

/- The catalog stays strictly sorted by id under any history. -/

lemma le_getLast_id : ∀ (c : List PdfEntry),
    c.Pairwise (fun a b => a.id < b.id) →
    ∀ (hne : c ≠ []) (e : PdfEntry), e ∈ c → e.id ≤ (c.getLast hne).id
  | [], _, hne, _, _ => absurd rfl hne
  | [a], _, _, e, he => by
      have : e = a := by simpa using he
      rw [this]
      exact le_rfl
  | a :: b :: rest, hs, _, e, he => by
      rw [List.getLast_cons (List.cons_ne_nil b rest)]
      rcases List.mem_cons.mp he with rfl | he2
      · have hall : ∀ y ∈ b :: rest, e.id < y.id := (List.pairwise_cons.mp hs).1
        exact le_of_lt (hall _ (List.getLast_mem (List.cons_ne_nil b rest)))
      · exact le_getLast_id (b :: rest) (List.pairwise_cons.mp hs).2
          (List.cons_ne_nil b rest) e he2

lemma latest_id_gt (c : List PdfEntry) (hs : IdsSorted c) (e : PdfEntry) (he : e ∈ c) :
    e.id < latest_id c := by
  have hne : c ≠ [] := by
    rintro rfl
    cases he
  rw [latest_id, List.getLast?_eq_getLast c hne]
  have hp : c.Pairwise (fun a b => a.id < b.id) := List.pairwise_map.mp hs
  have := le_getLast_id c hp hne e he
  show e.id < (c.getLast hne).id + 1
  omega

lemma stepCatalog_sorted (c : List PdfEntry) (op : CatalogOp) (hs : IdsSorted c) :
    IdsSorted (stepCatalog c op) := by
  cases op with
  | reg p cl cv n =>
    rw [stepCatalog, register_pdf, IdsSorted, List.map_append, List.pairwise_append]
    refine ⟨hs, by simp, ?_⟩
    intro x hx y hy
    have hy2 : y = latest_id c := by simpa using hy
    subst hy2
    rcases List.mem_map.mp hx with ⟨e, he, rfl⟩
    exact latest_id_gt c hs e he
  | rm id =>
    simp only [stepCatalog, remove_pdf]
    cases hbs : binary_search_by (c.map PdfEntry.id) id with
    | some index => exact hs.sublist ((List.eraseIdx_sublist c index).map PdfEntry.id)
    | none => exact hs

lemma runCatalog_sorted_aux (ops : List CatalogOp) :
    ∀ c, IdsSorted c → IdsSorted (ops.foldl stepCatalog c) := by
  induction ops with
  | nil => intro c h; exact h
  | cons op rest ih => intro c h; exact ih _ (stepCatalog_sorted c op h)

lemma reachable_sorted (c : List PdfEntry) (h : ReachableCatalog c) : IdsSorted c := by
  rcases h with ⟨ops, rfl⟩
  exact runCatalog_sorted_aux ops [] List.Pairwise.nil

lemma sorted_foldr_maxId : ∀ (c : List PdfEntry),
    c.Pairwise (fun a b => a.id < b.id) →
    ∀ (hne : c ≠ []), c.foldr (fun e m => max e.id m) 0 = (c.getLast hne).id
  | [], _, hne => absurd rfl hne
  | [a], _, _ => by simp [List.getLast]
  | a :: b :: rest, hs, _ => by
      rw [List.getLast_cons (List.cons_ne_nil b rest), List.foldr_cons]
      rw [sorted_foldr_maxId (b :: rest) (List.pairwise_cons.mp hs).2 (List.cons_ne_nil b rest)]
      have hall : ∀ y ∈ b :: rest, a.id < y.id := (List.pairwise_cons.mp hs).1
      exact Nat.max_eq_right
        (le_of_lt (hall _ (List.getLast_mem (List.cons_ne_nil b rest))))

lemma latest_id_eq_maxId (c : List PdfEntry) (hs : IdsSorted c) :
    latest_id c = maxId c + 1 := by
  cases hc : c with
  | nil => rfl
  | cons a rest =>
    rw [← hc]
    have hne : c ≠ [] := by rw [hc]; exact List.cons_ne_nil a rest
    rw [latest_id, List.getLast?_eq_getLast c hne, maxId,
      sorted_foldr_maxId c (List.pairwise_map.mp hs) hne]

/-- Claim C1 (corrected part), counterexample: after registering three
documents and removing the one with identity 3, the next registration
assigns identity 3 again — latest_id is last-entry id + 1, so a deleted
maximal identity is reused, contradicting that no assigned identity equals
one previously assigned and later removed. -/
theorem identity_reuse_cex :
    assignedIds [] [CatalogOp.reg ("p") ("c") ("v") ("n"), CatalogOp.reg ("p") ("c") ("v") ("n"),
        CatalogOp.reg ("p") ("c") ("v") ("n")] = [1, 2, 3]
    ∧ (runCatalog [CatalogOp.reg ("p") ("c") ("v") ("n"), CatalogOp.reg ("p") ("c") ("v") ("n"),
        CatalogOp.reg ("p") ("c") ("v") ("n"), CatalogOp.rm 3]).map PdfEntry.id = [1, 2]
    ∧ assignedIds [] [CatalogOp.reg ("p") ("c") ("v") ("n"), CatalogOp.reg ("p") ("c") ("v") ("n"),
        CatalogOp.reg ("p") ("c") ("v") ("n"), CatalogOp.rm 3, CatalogOp.reg ("p") ("c") ("v") ("n")]
      = [1, 2, 3, 3] :=
  ⟨rfl, rfl, rfl⟩

/-- Claim C1 (amended): on every reachable catalog, register_pdf appends an
entry whose identity is max(existing identities) + 1, which is 1 when the
catalog is empty (maxId of an empty catalog being 0); however identities
can be reused after deletion — removing the entry with the greatest
identity makes the next registration assign that same identity again. -/
theorem register_assigns_max_plus_one (c : List PdfEntry) (h : ReachableCatalog c)
    (p cl cv n : String) :
    register_pdf c p cl cv n = c ++ [⟨maxId c + 1, p, cl, cv, n⟩] := by
  rw [register_pdf, latest_id_eq_maxId c (reachable_sorted c h)]

/-- Witness for the amended claim C1 theorem: the catalog reached by one
registration assigns identity 2 = maxId + 1 to the next registration. -/
theorem register_assigns_max_plus_one_witness :
    ReachableCatalog [⟨1, ("p"), ("c"), ("v"), ("n")⟩]
    ∧ register_pdf [⟨1, ("p"), ("c"), ("v"), ("n")⟩] ("p") ("c") ("v") ("n")
      = [⟨1, ("p"), ("c"), ("v"), ("n")⟩] ++ [⟨2, ("p"), ("c"), ("v"), ("n")⟩] :=
  ⟨⟨[CatalogOp.reg ("p") ("c") ("v") ("n")], rfl⟩,
   register_assigns_max_plus_one [⟨1, ("p"), ("c"), ("v"), ("n")⟩]
     ⟨[CatalogOp.reg ("p") ("c") ("v") ("n")], rfl⟩ ("p") ("c") ("v") ("n")⟩

/-- Claim C6: after any sequence of registrations and removals starting
from the empty catalog, the catalog remains strictly sorted in ascending
identity order, and the binary-search lookup shared by load_pdf, rename_pdf
and remove_pdf returns the entry with the requested identity when one is
present and reports not-found when absent. -/
theorem catalog_lookup_correct (c : List PdfEntry) (h : ReachableCatalog c) (id : Nat) :
    IdsSorted c
    ∧ ((∃ e ∈ c, e.id = id) →
        ∃ e, load_pdf_lookup c id = Except.ok e ∧ e ∈ c ∧ e.id = id)
    ∧ ((∀ e ∈ c, e.id ≠ id) →
        load_pdf_lookup c id = Except.error ("PDF with id " ++ Nat.repr id ++ " not found")) := by
  have hs : IdsSorted c := reachable_sorted c h
  have hlen : (c.map PdfEntry.id).length = c.length := List.length_map c PdfEntry.id
  refine ⟨hs, ?_, ?_⟩
  · rintro ⟨e, he, rfl⟩
    rcases List.getElem_of_mem he with ⟨j, hj, hje⟩
    have hjlen : j < (c.map PdfEntry.id).length := by omega
    have hgd : (c.map PdfEntry.id).getD j 0 = e.id := by
      rw [List.getD_eq_getElem _ 0 hjlen, List.getElem_map, hje]
    rcases binary_search_found (c.map PdfEntry.id) e.id hs j hjlen hgd with ⟨i, hi⟩
    rcases binary_search_sound _ _ _ hi with ⟨hilen, higd⟩
    have hic : i < c.length := by omega
    refine ⟨c.getD i default, ?_, ?_, ?_⟩
    · rw [load_pdf_lookup, hi]
    · rw [List.getD_eq_getElem c default hic]
      exact List.getElem_mem hic
    · rw [List.getD_eq_getElem c default hic]
      rw [List.getD_eq_getElem _ 0 hilen, List.getElem_map] at higd
      exact higd
  · intro hnone
    cases hbs : binary_search_by (c.map PdfEntry.id) id with
    | some i =>
      exfalso
      rcases binary_search_sound _ _ _ hbs with ⟨hilen, higd⟩
      have hic : i < c.length := by omega
      rw [List.getD_eq_getElem _ 0 hilen, List.getElem_map] at higd
      exact hnone _ (List.getElem_mem hic) higd
    | none =>
      rw [load_pdf_lookup, hbs]

/-- Witness for the claim C6 theorem: the catalog reached by two
registrations is sorted and lookup of identity 2 succeeds. -/
theorem catalog_lookup_correct_witness :
    ReachableCatalog [⟨1, ("p"), ("c"), ("v"), ("n")⟩, ⟨2, ("p"), ("c"), ("v"), ("n")⟩]
    ∧ (IdsSorted [⟨1, ("p"), ("c"), ("v"), ("n")⟩, ⟨2, ("p"), ("c"), ("v"), ("n")⟩]
      ∧ ((∃ e ∈ ([⟨1, ("p"), ("c"), ("v"), ("n")⟩, ⟨2, ("p"), ("c"), ("v"), ("n")⟩] :
            List PdfEntry), e.id = 2) →
          ∃ e, load_pdf_lookup [⟨1, ("p"), ("c"), ("v"), ("n")⟩, ⟨2, ("p"), ("c"), ("v"), ("n")⟩] 2
              = Except.ok e
            ∧ e ∈ ([⟨1, ("p"), ("c"), ("v"), ("n")⟩, ⟨2, ("p"), ("c"), ("v"), ("n")⟩] :
                List PdfEntry) ∧ e.id = 2)
      ∧ ((∀ e ∈ ([⟨1, ("p"), ("c"), ("v"), ("n")⟩, ⟨2, ("p"), ("c"), ("v"), ("n")⟩] :
            List PdfEntry), e.id ≠ 2) →
          load_pdf_lookup [⟨1, ("p"), ("c"), ("v"), ("n")⟩, ⟨2, ("p"), ("c"), ("v"), ("n")⟩] 2
            = Except.error ("PDF with id " ++ Nat.repr 2 ++ " not found"))) :=
  ⟨⟨[CatalogOp.reg ("p") ("c") ("v") ("n"), CatalogOp.reg ("p") ("c") ("v") ("n")], rfl⟩,
   catalog_lookup_correct _
     ⟨[CatalogOp.reg ("p") ("c") ("v") ("n"), CatalogOp.reg ("p") ("c") ("v") ("n")], rfl⟩ 2⟩

/- The extraction pipeline (pdf.rs extract_pdf_data, lines 221-303). -/

/- A page of the opened document as the pipeline sees it: its logical size
   (f32 values modelled as exact rationals) and whether page.render
   succeeds on it. -/

structure PdfPage where
  height : ℚ
  width : ℚ
  renderOk : Bool
deriving DecidableEq

structure ExtractOptions where
  thumbnail : Bool
  dims : Bool
deriving DecidableEq

/- Rust (q / 3.0) as i32 for a nonnegative finite value: the quotient
   truncated toward zero, computed exactly on the rational num/den as
   t-division of num by 3*den. -/

def third_as_i32 (q : ℚ) : Int := Int.tdiv q.num (3 * (q.den : Int))

/- The observable actions of one pipeline run, in program order: whole-file
   writes of the two json artifacts, notification emissions, render calls
   (with the width and height passed to page.render) and thumbnail image
   writes. -/

inductive ExtractEvent where
  | writeDims (snapshot : List (Nat × Dimensions))
  | emitDims (snapshot : List (Nat × Dimensions))
  | renderPage (page : Nat) (width height : Int)
  | writeImage (path : String)
  | emitThumbs (snapshot : List (Nat × String))
  | writeThumbs (snapshot : List (Nat × String))
deriving DecidableEq

structure ExtractState where
  pdf_pages_dims : List (Nat × Dimensions)
  page_thumbs : List (Nat × String)
  dimsFile : Option (List (Nat × Dimensions))
  thumbsFile : Option (List (Nat × String))
  events : List ExtractEvent
deriving DecidableEq

def initExtractState : ExtractState := ⟨[], [], none, none, []⟩

/- HashMap::insert on the association-list model: replace the value in
   place when the key is present, append otherwise. -/

def mapInsert {α : Type} (m : List (Nat × α)) (k : Nat) (v : α) : List (Nat × α) :=
  match m.any (fun kv => kv.1 == k) with
  | true => m.map (fun kv => if kv.1 == k then (k, v) else kv)
  | false => m ++ [(k, v)]

/- thumbs_dir.join(format page_{page_no}_{timestamp}.jpg). -/

def thumbName (timestamp : String) (page_no : Nat) : String :=
  ("thumbnails/page_") ++ Nat.repr page_no ++ ("_") ++ timestamp ++ (".jpg")

/- One iteration of the extract_pdf_data page loop: if dims requested,
   insert the measured size, persist the whole accumulator, then emit; if
   thumbnails requested, render at a third of the page size (abort on
   failure), save the image, insert the path, emit, then persist the whole
   accumulator. -/

def processPage (options : ExtractOptions) (timestamp : String) (page_no : Nat)
    (page : PdfPage) (st : ExtractState) : ExtractState × Option String :=
  let st1 :=
    match options.dims with
    | true =>
      let acc := mapInsert st.pdf_pages_dims page_no ⟨page.height, page.width⟩
      { st with
        pdf_pages_dims := acc
        dimsFile := some acc
        events := st.events ++ [ExtractEvent.writeDims acc, ExtractEvent.emitDims acc] }
    | false => st
  match options.thumbnail with
  | true =>
    let thumb_width := third_as_i32 page.width
    let thumb_height := third_as_i32 page.height
    let st2 := { st1 with
      events := st1.events ++ [ExtractEvent.renderPage page_no thumb_width thumb_height] }
    match page.renderOk with
    | true =>
      let thumb_path := thumbName timestamp page_no
      let acc := mapInsert st2.page_thumbs page_no thumb_path
      ({ st2 with
         page_thumbs := acc
         thumbsFile := some acc
         events := st2.events ++ [ExtractEvent.writeImage thumb_path,
           ExtractEvent.emitThumbs acc, ExtractEvent.writeThumbs acc] }, none)
    | false => (st2, some ("render error"))
  | false => (st1, none)

def extractGo (options : ExtractOptions) (timestamp : String) :
    List PdfPage → Nat → ExtractState → ExtractState × Option String
  | [], _, st => (st, none)
  | page :: rest, page_no, st =>
    match processPage options timestamp page_no page st with
    | (st2, none) => extractGo options timestamp rest (page_no + 1) st2
    | (st2, some e) => (st2, some e)

/- pdf.rs extract_pdf_data: return immediately when neither artifact kind
   is requested, otherwise walk the pages in order starting at page 1. -/

def extract_pdf_data (options : ExtractOptions) (timestamp : String)
    (pages : List PdfPage) : ExtractState × Option String :=
  match options.thumbnail, options.dims with
  | false, false => (initExtractState, none)
  | _, _ => extractGo options timestamp pages 1 initExtractState

/- Specification-side recursion: the same run expressed with append-only
   accumulators, used to reason about extractGo. -/

structure RunResult where
  events : List ExtractEvent
  dimsAcc : List (Nat × Dimensions)
  thumbsAcc : List (Nat × String)
  dimsWritten : Bool
  thumbsWritten : Bool
  err : Option String

def runSpec (options : ExtractOptions) (timestamp : String) :
    List PdfPage → Nat → List (Nat × Dimensions) → List (Nat × String) → RunResult
  | [], _, dAcc, tAcc => ⟨[], dAcc, tAcc, false, false, none⟩
  | page :: rest, n, dAcc, tAcc =>
    let dAcc2 :=
      match options.dims with
      | true => dAcc ++ [(n, ⟨page.height, page.width⟩)]
      | false => dAcc
    let dEvs : List ExtractEvent :=
      match options.dims with
      | true => [ExtractEvent.writeDims dAcc2, ExtractEvent.emitDims dAcc2]
      | false => []
    match options.thumbnail with
    | true =>
      match page.renderOk with
      | true =>
        let tAcc2 := tAcc ++ [(n, thumbName timestamp n)]
        let r := runSpec options timestamp rest (n + 1) dAcc2 tAcc2
        ⟨dEvs ++ ExtractEvent.renderPage n (third_as_i32 page.width) (third_as_i32 page.height) ::
            ExtractEvent.writeImage (thumbName timestamp n) :: ExtractEvent.emitThumbs tAcc2 ::
            ExtractEvent.writeThumbs tAcc2 :: r.events,
         r.dimsAcc, r.thumbsAcc, options.dims || r.dimsWritten, true, r.err⟩
      | false =>
        ⟨dEvs ++ [ExtractEvent.renderPage n (third_as_i32 page.width) (third_as_i32 page.height)],
         dAcc2, tAcc, options.dims, false, some ("render error")⟩
    | false =>
      let r := runSpec options timestamp rest (n + 1) dAcc2 tAcc
      ⟨dEvs ++ r.events, r.dimsAcc, r.thumbsAcc, options.dims || r.dimsWritten,
       r.thumbsWritten, r.err⟩

def assembleState (st : ExtractState) (r : RunResult) : ExtractState :=
  { pdf_pages_dims := r.dimsAcc
    page_thumbs := r.thumbsAcc
    dimsFile := cond r.dimsWritten (some r.dimsAcc) st.dimsFile
    thumbsFile := cond r.thumbsWritten (some r.thumbsAcc) st.thumbsFile
    events := st.events ++ r.events }

/- Per-page entries and snapshot sequences, used to state trace properties. -/

def dimsEntries (n : Nat) : List PdfPage → List (Nat × Dimensions)
  | [] => []
  | page :: rest => (n, ⟨page.height, page.width⟩) :: dimsEntries (n + 1) rest

def thumbEntries (timestamp : String) (n : Nat) : List PdfPage → List (Nat × String)
  | [] => []
  | _ :: rest => (n, thumbName timestamp n) :: thumbEntries timestamp (n + 1) rest

def snapshotsOf {α : Type} (acc : List α) : List α → List (List α)
  | [] => []
  | x :: rest => (acc ++ [x]) :: snapshotsOf (acc ++ [x]) rest

def emittedDims : List ExtractEvent → List (List (Nat × Dimensions))
  | [] => []
  | ExtractEvent.emitDims s :: rest => s :: emittedDims rest
  | _ :: rest => emittedDims rest

def emittedThumbs : List ExtractEvent → List (List (Nat × String))
  | [] => []
  | ExtractEvent.emitThumbs s :: rest => s :: emittedThumbs rest
  | _ :: rest => emittedThumbs rest

def isDimsAction : ExtractEvent → Bool
  | ExtractEvent.writeDims _ => true
  | ExtractEvent.emitDims _ => true
  | _ => false

def isThumbsAction : ExtractEvent → Bool
  | ExtractEvent.emitThumbs _ => true
  | ExtractEvent.writeThumbs _ => true
  | _ => false

/- Checkers for persist/notify ordering within one artifact kind: the
   subsequence of that kind's actions must be consecutive pairs carrying
   the same snapshot, in the stated order. -/

def persistThenNotifyDims : List ExtractEvent → Bool
  | [] => true
  | ExtractEvent.writeDims a :: ExtractEvent.emitDims b :: rest =>
    a == b && persistThenNotifyDims rest
  | _ => false

def notifyThenPersistThumbs : List ExtractEvent → Bool
  | [] => true
  | ExtractEvent.emitThumbs a :: ExtractEvent.writeThumbs b :: rest =>
    a == b && notifyThenPersistThumbs rest
  | _ => false

def persistThenNotifyThumbs : List ExtractEvent → Bool
  | [] => true
  | ExtractEvent.writeThumbs a :: ExtractEvent.emitThumbs b :: rest =>
    a == b && persistThenNotifyThumbs rest
  | _ => false

def KeysLt {α : Type} (m : List (Nat × α)) (n : Nat) : Prop :=
  ∀ kv ∈ m, kv.1 < n

/- mapInsert appends when the key is fresh. -/

lemma mapInsert_append {α : Type} (m : List (Nat × α)) (k : Nat) (v : α)
    (h : ∀ kv ∈ m, kv.1 ≠ k) : mapInsert m k v = m ++ [(k, v)] := by
  have hany : m.any (fun kv => kv.1 == k) = false := by
    rw [List.any_eq_false]
    intro kv hkv
    simpa using h kv hkv
  simp only [mapInsert, hany]

lemma keysLt_ne {α : Type} (m : List (Nat × α)) (n : Nat) (h : KeysLt m n) :
    ∀ kv ∈ m, kv.1 ≠ n := fun kv hkv => Nat.ne_of_lt (h kv hkv)

lemma keysLt_append {α : Type} (m : List (Nat × α)) (n : Nat) (v : α)
    (h : KeysLt m n) : KeysLt (m ++ [(n, v)]) (n + 1) := by
  intro kv hkv
  rcases List.mem_append.mp hkv with h1 | h1
  · exact lt_trans (h kv h1) (Nat.lt_succ_self n)
  · have hkvv : kv = (n, v) := by simpa using h1
    rw [hkvv]
    exact Nat.lt_succ_self n

lemma keysLt_mono {α : Type} (m : List (Nat × α)) (n : Nat) (h : KeysLt m n) :
    KeysLt m (n + 1) := fun kv hkv => lt_trans (h kv hkv) (Nat.lt_succ_self n)

/- When a run never wrote an artifact, its accumulator is unchanged. -/

lemma runSpec_dimsAcc_of_not_written (options : ExtractOptions) (ts : String) :
    ∀ (pages : List PdfPage) (n : Nat) (dAcc : List (Nat × Dimensions))
      (tAcc : List (Nat × String)),
      (runSpec options ts pages n dAcc tAcc).dimsWritten = false →
      (runSpec options ts pages n dAcc tAcc).dimsAcc = dAcc := by
  obtain ⟨thumb, dims⟩ := options
  intro pages
  induction pages with
  | nil => intro n dAcc tAcc _; rfl
  | cons page rest ih =>
    intro n dAcc tAcc h
    obtain ⟨ph, pw, prok⟩ := page
    cases dims with
    | true =>
      exfalso
      cases thumb with
      | true =>
        cases prok with
        | true => simp [runSpec] at h
        | false => simp [runSpec] at h
      | false => simp [runSpec] at h
    | false =>
      cases thumb with
      | true =>
        cases prok with
        | true =>
          simp only [runSpec] at h ⊢
          exact ih _ _ _ h
        | false => simp [runSpec]
      | false =>
        simp only [runSpec] at h ⊢
        exact ih _ _ _ h

lemma runSpec_thumbsAcc_of_not_written (options : ExtractOptions) (ts : String) :
    ∀ (pages : List PdfPage) (n : Nat) (dAcc : List (Nat × Dimensions))
      (tAcc : List (Nat × String)),
      (runSpec options ts pages n dAcc tAcc).thumbsWritten = false →
      (runSpec options ts pages n dAcc tAcc).thumbsAcc = tAcc := by
  obtain ⟨thumb, dims⟩ := options
  intro pages
  induction pages with
  | nil => intro n dAcc tAcc _; rfl
  | cons page rest ih =>
    intro n dAcc tAcc h
    obtain ⟨ph, pw, prok⟩ := page
    cases thumb with
    | true =>
      cases prok with
      | true => simp [runSpec] at h
      | false =>
        cases dims with
        | true => simp [runSpec]
        | false => simp [runSpec]
    | false =>
      cases dims with
      | true =>
        simp only [runSpec] at h ⊢
        exact ih _ _ _ h
      | false =>
        simp only [runSpec] at h ⊢
        exact ih _ _ _ h

lemma cond_written_dims (options : ExtractOptions) (ts : String) (rest : List PdfPage)
    (n : Nat) (dAcc : List (Nat × Dimensions)) (tAcc : List (Nat × String)) :
    cond (runSpec options ts rest n dAcc tAcc).dimsWritten
      (some (runSpec options ts rest n dAcc tAcc).dimsAcc) (some dAcc)
    = some (runSpec options ts rest n dAcc tAcc).dimsAcc := by
  cases h : (runSpec options ts rest n dAcc tAcc).dimsWritten
  · simp [runSpec_dimsAcc_of_not_written options ts rest n dAcc tAcc h]
  · simp

lemma cond_written_thumbs (options : ExtractOptions) (ts : String) (rest : List PdfPage)
    (n : Nat) (dAcc : List (Nat × Dimensions)) (tAcc : List (Nat × String)) :
    cond (runSpec options ts rest n dAcc tAcc).thumbsWritten
      (some (runSpec options ts rest n dAcc tAcc).thumbsAcc) (some tAcc)
    = some (runSpec options ts rest n dAcc tAcc).thumbsAcc := by
  cases h : (runSpec options ts rest n dAcc tAcc).thumbsWritten
  · simp [runSpec_thumbsAcc_of_not_written options ts rest n dAcc tAcc h]
  · simp

/- extractGo computes exactly what runSpec describes, for fresh page
   numbers. -/

lemma extractGo_eq_runSpec (options : ExtractOptions) (ts : String) :
    ∀ (pages : List PdfPage) (n : Nat) (st : ExtractState),
      KeysLt st.pdf_pages_dims n → KeysLt st.page_thumbs n →
      extractGo options ts pages n st =
        (assembleState st (runSpec options ts pages n st.pdf_pages_dims st.page_thumbs),
         (runSpec options ts pages n st.pdf_pages_dims st.page_thumbs).err) := by
  obtain ⟨thumb, dims⟩ := options
  intro pages
  induction pages with
  | nil =>
    intro n st hkd hkt
    simp [extractGo, runSpec, assembleState]
  | cons page rest ih =>
    intro n st hkd hkt
    obtain ⟨ph, pw, prok⟩ := page
    obtain ⟨sd, stt, sdf, stf, sev⟩ := st
    simp only [KeysLt] at hkd hkt
    cases dims with
    | true =>
      have hins := mapInsert_append sd n (⟨ph, pw⟩ : Dimensions) (keysLt_ne sd n hkd)
      cases thumb with
      | true =>
        cases prok with
        | true =>
          have hins2 := mapInsert_append stt n (thumbName ts n) (keysLt_ne stt n hkt)
          simp only [extractGo, processPage, hins, hins2]
          rw [ih (n + 1) ⟨sd ++ [(n, ⟨ph, pw⟩)], stt ++ [(n, thumbName ts n)], _, _, _⟩
            (keysLt_append sd n _ hkd) (keysLt_append stt n _ hkt)]
          simp only [runSpec, assembleState, List.append_assoc, List.cons_append,
            List.nil_append, Bool.true_or, cond_true, cond_written_dims, cond_written_thumbs]
        | false =>
          simp only [extractGo, processPage, hins]
          simp only [runSpec, assembleState, List.append_assoc, List.cons_append,
            List.nil_append, cond_true, cond_false]
      | false =>
        simp only [extractGo, processPage, hins]
        rw [ih (n + 1) ⟨sd ++ [(n, ⟨ph, pw⟩)], stt, _, _, _⟩
          (keysLt_append sd n _ hkd) (keysLt_mono stt n hkt)]
        simp only [runSpec, assembleState, List.append_assoc, List.cons_append,
          List.nil_append, Bool.true_or, cond_true, cond_written_dims]
    | false =>
      cases thumb with
      | true =>
        cases prok with
        | true =>
          have hins2 := mapInsert_append stt n (thumbName ts n) (keysLt_ne stt n hkt)
          simp only [extractGo, processPage, hins2]
          rw [ih (n + 1) ⟨sd, stt ++ [(n, thumbName ts n)], _, _, _⟩
            (keysLt_mono sd n hkd) (keysLt_append stt n _ hkt)]
          simp only [runSpec, assembleState, List.append_assoc, List.cons_append,
            List.nil_append, Bool.false_or, cond_true, cond_written_thumbs]
        | false =>
          simp only [extractGo, processPage]
          simp only [runSpec, assembleState, List.append_assoc, List.cons_append,
            List.nil_append, cond_false]
      | false =>
        simp only [extractGo, processPage]
        rw [ih (n + 1) ⟨sd, stt, _, _, _⟩ (keysLt_mono sd n hkd) (keysLt_mono stt n hkt)]
        simp only [runSpec, assembleState, List.append_assoc, List.nil_append, Bool.false_or]

lemma keysLt_nil {α : Type} (n : Nat) : KeysLt ([] : List (Nat × α)) n :=
  fun kv hkv => absurd hkv (List.not_mem_nil kv)

/- extract_pdf_data in terms of runSpec when at least one kind is
   requested. -/

lemma extract_eq_runSpec (options : ExtractOptions) (ts : String) (pages : List PdfPage)
    (h : options.dims = true ∨ options.thumbnail = true) :
    extract_pdf_data options ts pages =
      (assembleState initExtractState (runSpec options ts pages 1 [] []),
       (runSpec options ts pages 1 [] []).err) := by
  obtain ⟨thumb, dims⟩ := options
  have hgo := extractGo_eq_runSpec ⟨thumb, dims⟩ ts pages 1 initExtractState
    (keysLt_nil 1) (keysLt_nil 1)
  cases thumb with
  | true => exact hgo
  | false =>
    cases dims with
    | true => exact hgo
    | false => simp at h

/- Trace bookkeeping lemmas. -/

lemma emittedDims_length_cons_skip (e : ExtractEvent) (rest : List ExtractEvent)
    (h : ∀ s, e ≠ ExtractEvent.emitDims s) :
    emittedDims (e :: rest) = emittedDims rest := by
  cases e with
  | emitDims s => exact absurd rfl (h s)
  | writeDims s => rfl
  | renderPage p w ht => rfl
  | writeImage p => rfl
  | emitThumbs s => rfl
  | writeThumbs s => rfl

lemma dimsEntries_length : ∀ (pages : List PdfPage) (n : Nat),
    (dimsEntries n pages).length = pages.length
  | [], _ => rfl
  | _ :: rest, n => by
      simp [dimsEntries, dimsEntries_length rest (n + 1)]

lemma thumbEntries_length (ts : String) : ∀ (pages : List PdfPage) (n : Nat),
    (thumbEntries ts n pages).length = pages.length
  | [], _ => rfl
  | _ :: rest, n => by
      simp [thumbEntries, thumbEntries_length ts rest (n + 1)]

lemma snapshotsOf_length {α : Type} : ∀ (l : List α) (acc : List α),
    (snapshotsOf acc l).length = l.length
  | [], _ => rfl
  | x :: rest, acc => by
      simp [snapshotsOf, snapshotsOf_length rest (acc ++ [x])]

lemma snapshotsOf_getD {α : Type} : ∀ (l : List α) (acc : List α) (k : Nat),
    k < l.length → (snapshotsOf acc l).getD k [] = acc ++ l.take (k + 1)
  | [], _, k, h => by simp at h
  | x :: rest, acc, 0, _ => by simp [snapshotsOf]
  | x :: rest, acc, k + 1, h => by
      rw [snapshotsOf]
      show (snapshotsOf (acc ++ [x]) rest).getD k [] = acc ++ (x :: rest).take (k + 2)
      rw [snapshotsOf_getD rest (acc ++ [x]) k (by simpa using h)]
      simp

lemma dimsEntries_take : ∀ (pages : List PdfPage) (n m : Nat),
    (dimsEntries n pages).take m = dimsEntries n (pages.take m)
  | [], n, m => by simp [dimsEntries]
  | page :: rest, n, 0 => by simp [dimsEntries]
  | page :: rest, n, m + 1 => by
      simp [dimsEntries, dimsEntries_take rest (n + 1) m]

lemma dimsEntries_mem_fst : ∀ (pages : List PdfPage) (n p : Nat),
    (p ∈ (dimsEntries n pages).map Prod.fst) ↔ (n ≤ p ∧ p < n + pages.length)
  | [], n, p => by
      simp only [dimsEntries, List.map_nil, List.not_mem_nil, List.length_nil, false_iff]
      omega
  | page :: rest, n, p => by
      simp only [dimsEntries, List.map_cons, List.mem_cons, List.length_cons]
      rw [dimsEntries_mem_fst rest (n + 1) p]
      show (p = n ∨ n + 1 ≤ p ∧ p < n + 1 + rest.length) ↔ _
      omega

lemma thumbEntries_mem_fst (ts : String) : ∀ (pages : List PdfPage) (n p : Nat),
    (p ∈ (thumbEntries ts n pages).map Prod.fst) ↔ (n ≤ p ∧ p < n + pages.length)
  | [], n, p => by
      simp only [thumbEntries, List.map_nil, List.not_mem_nil, List.length_nil, false_iff]
      omega
  | page :: rest, n, p => by
      simp only [thumbEntries, List.map_cons, List.mem_cons, List.length_cons]
      rw [thumbEntries_mem_fst ts rest (n + 1) p]
      show (p = n ∨ n + 1 ≤ p ∧ p < n + 1 + rest.length) ↔ _
      omega

/- Unfolding equations for the emitted-snapshot observers. -/

lemma emittedDims_nil : emittedDims [] = [] := rfl

lemma emittedDims_writeDims (s : List (Nat × Dimensions)) (l : List ExtractEvent) :
    emittedDims (ExtractEvent.writeDims s :: l) = emittedDims l := rfl

lemma emittedDims_emitDims (s : List (Nat × Dimensions)) (l : List ExtractEvent) :
    emittedDims (ExtractEvent.emitDims s :: l) = s :: emittedDims l := rfl

lemma emittedDims_renderPage (p : Nat) (w h : Int) (l : List ExtractEvent) :
    emittedDims (ExtractEvent.renderPage p w h :: l) = emittedDims l := rfl

lemma emittedDims_writeImage (p : String) (l : List ExtractEvent) :
    emittedDims (ExtractEvent.writeImage p :: l) = emittedDims l := rfl

lemma emittedDims_emitThumbs (s : List (Nat × String)) (l : List ExtractEvent) :
    emittedDims (ExtractEvent.emitThumbs s :: l) = emittedDims l := rfl

lemma emittedDims_writeThumbs (s : List (Nat × String)) (l : List ExtractEvent) :
    emittedDims (ExtractEvent.writeThumbs s :: l) = emittedDims l := rfl

lemma emittedThumbs_nil : emittedThumbs [] = [] := rfl

lemma emittedThumbs_writeDims (s : List (Nat × Dimensions)) (l : List ExtractEvent) :
    emittedThumbs (ExtractEvent.writeDims s :: l) = emittedThumbs l := rfl

lemma emittedThumbs_emitDims (s : List (Nat × Dimensions)) (l : List ExtractEvent) :
    emittedThumbs (ExtractEvent.emitDims s :: l) = emittedThumbs l := rfl

lemma emittedThumbs_renderPage (p : Nat) (w h : Int) (l : List ExtractEvent) :
    emittedThumbs (ExtractEvent.renderPage p w h :: l) = emittedThumbs l := rfl

lemma emittedThumbs_writeImage (p : String) (l : List ExtractEvent) :
    emittedThumbs (ExtractEvent.writeImage p :: l) = emittedThumbs l := rfl

lemma emittedThumbs_emitThumbs (s : List (Nat × String)) (l : List ExtractEvent) :
    emittedThumbs (ExtractEvent.emitThumbs s :: l) = s :: emittedThumbs l := rfl

lemma emittedThumbs_writeThumbs (s : List (Nat × String)) (l : List ExtractEvent) :
    emittedThumbs (ExtractEvent.writeThumbs s :: l) = emittedThumbs l := rfl

/- On a successful run with dimensions requested, the emitted dimension
   snapshots are exactly the growing prefixes of the per-page entries. -/

lemma runSpec_emitDims_of_ok (thumb : Bool) (ts : String) :
    ∀ (pages : List PdfPage) (n : Nat) (dAcc : List (Nat × Dimensions))
      (tAcc : List (Nat × String)),
      (runSpec ⟨thumb, true⟩ ts pages n dAcc tAcc).err = none →
      emittedDims (runSpec ⟨thumb, true⟩ ts pages n dAcc tAcc).events
        = snapshotsOf dAcc (dimsEntries n pages) := by
  intro pages
  induction pages with
  | nil => intro n dAcc tAcc _; rfl
  | cons page rest ih =>
    intro n dAcc tAcc h
    obtain ⟨ph, pw, prok⟩ := page
    cases thumb with
    | true =>
      cases prok with
      | true =>
        simp only [runSpec] at h ⊢
        rw [dimsEntries, snapshotsOf]
        simp only [List.cons_append, List.nil_append, emittedDims_writeDims,
          emittedDims_emitDims, emittedDims_renderPage, emittedDims_writeImage,
          emittedDims_emitThumbs, emittedDims_writeThumbs]
        rw [ih _ _ _ h]
      | false => simp [runSpec] at h
    | false =>
      simp only [runSpec] at h ⊢
      rw [dimsEntries, snapshotsOf]
      simp only [List.cons_append, List.nil_append, emittedDims_writeDims,
        emittedDims_emitDims]
      rw [ih _ _ _ h]

/- On a successful run with thumbnails requested, exactly one thumbnail
   notification is emitted per page. -/

lemma runSpec_emitThumbs_count_of_ok (dims : Bool) (ts : String) :
    ∀ (pages : List PdfPage) (n : Nat) (dAcc : List (Nat × Dimensions))
      (tAcc : List (Nat × String)),
      (runSpec ⟨true, dims⟩ ts pages n dAcc tAcc).err = none →
      (emittedThumbs (runSpec ⟨true, dims⟩ ts pages n dAcc tAcc).events).length
        = pages.length := by
  intro pages
  induction pages with
  | nil => intro n dAcc tAcc _; rfl
  | cons page rest ih =>
    intro n dAcc tAcc h
    obtain ⟨ph, pw, prok⟩ := page
    cases prok with
    | true =>
      cases dims with
      | true =>
        simp only [runSpec] at h ⊢
        simp only [List.cons_append, List.nil_append, emittedThumbs_writeDims,
          emittedThumbs_emitDims, emittedThumbs_renderPage, emittedThumbs_writeImage,
          emittedThumbs_emitThumbs, emittedThumbs_writeThumbs, List.length_cons]
        rw [ih _ _ _ h]
      | false =>
        simp only [runSpec] at h ⊢
        simp only [List.cons_append, List.nil_append, emittedThumbs_renderPage,
          emittedThumbs_writeImage, emittedThumbs_emitThumbs, emittedThumbs_writeThumbs,
          List.length_cons]
        rw [ih _ _ _ h]
    | false =>
      cases dims with
      | true => simp [runSpec] at h
      | false => simp [runSpec] at h

/-- Claim C2: for a document whose extraction completes with dimensions
requested, pages are processed in increasing page-number order starting at
1 — the k-th emitted dimensions mapping covers exactly pages 1..k+1 — there
is exactly one dimensions notification per page (and one thumbnail
notification per page when thumbnails are also requested), each emitted
dimensions mapping is a superset of the previous one, and the final
mapping's key set is exactly 1..N. -/
theorem extract_dims_notifications_monotone (options : ExtractOptions) (ts : String)
    (pages : List PdfPage) (hdims : options.dims = true)
    (hok : (extract_pdf_data options ts pages).2 = none) :
    (emittedDims (extract_pdf_data options ts pages).1.events).length = pages.length
    ∧ (∀ k, k < pages.length → ∀ p : Nat,
        (p ∈ ((emittedDims (extract_pdf_data options ts pages).1.events).getD k []).map
          Prod.fst) ↔ (1 ≤ p ∧ p ≤ k + 1))
    ∧ (∀ k, k + 1 < pages.length →
        ∀ e ∈ (emittedDims (extract_pdf_data options ts pages).1.events).getD k [],
          e ∈ (emittedDims (extract_pdf_data options ts pages).1.events).getD (k + 1) [])
    ∧ (options.thumbnail = true →
        (emittedThumbs (extract_pdf_data options ts pages).1.events).length = pages.length) := by
  obtain ⟨thumb, dims⟩ := options
  have hd : dims = true := hdims
  subst hd
  have hlink := extract_eq_runSpec ⟨thumb, true⟩ ts pages (Or.inl rfl)
  rw [hlink] at hok ⊢
  have herr : (runSpec ⟨thumb, true⟩ ts pages 1 [] []).err = none := hok
  simp only [assembleState, initExtractState, List.nil_append]
  rw [runSpec_emitDims_of_ok thumb ts pages 1 [] [] herr]
  have hlen : (snapshotsOf ([] : List (Nat × Dimensions)) (dimsEntries 1 pages)).length
      = pages.length := by
    rw [snapshotsOf_length, dimsEntries_length]
  have hentlen : (dimsEntries 1 pages).length = pages.length := dimsEntries_length pages 1
  refine ⟨hlen, ?_, ?_, ?_⟩
  · intro k hk p
    rw [snapshotsOf_getD (dimsEntries 1 pages) [] k (by omega), List.nil_append,
      dimsEntries_take, dimsEntries_mem_fst, List.length_take]
    have hmin : min (k + 1) pages.length = k + 1 := Nat.min_eq_left (by omega)
    rw [hmin]
    omega
  · intro k hk e he
    rw [snapshotsOf_getD (dimsEntries 1 pages) [] k (by omega), List.nil_append] at he
    rw [snapshotsOf_getD (dimsEntries 1 pages) [] (k + 1) (by omega), List.nil_append]
    have heq : (dimsEntries 1 pages).take (k + 1)
        = ((dimsEntries 1 pages).take (k + 2)).take (k + 1) := by
      rw [List.take_take, Nat.min_eq_left (by omega)]
    rw [heq] at he
    exact List.take_subset _ _ he
  · intro hthumb
    have ht : thumb = true := hthumb
    subst ht
    exact runSpec_emitThumbs_count_of_ok true ts pages 1 [] [] herr

def c2_pages : List PdfPage := [⟨3, 3, true⟩, ⟨6, 3, true⟩]

/-- Witness for the claim C2 theorem: a two-page document with both kinds
requested extracts successfully. -/
theorem extract_dims_notifications_monotone_witness :
    ((⟨true, true⟩ : ExtractOptions).dims = true
      ∧ (extract_pdf_data ⟨true, true⟩ ("t") c2_pages).2 = none)
    ∧ ((emittedDims (extract_pdf_data ⟨true, true⟩ ("t") c2_pages).1.events).length
        = c2_pages.length
      ∧ (∀ k, k < c2_pages.length → ∀ p : Nat,
          (p ∈ ((emittedDims (extract_pdf_data ⟨true, true⟩ ("t") c2_pages).1.events).getD
            k []).map Prod.fst) ↔ (1 ≤ p ∧ p ≤ k + 1))
      ∧ (∀ k, k + 1 < c2_pages.length →
          ∀ e ∈ (emittedDims (extract_pdf_data ⟨true, true⟩ ("t") c2_pages).1.events).getD k [],
            e ∈ (emittedDims (extract_pdf_data ⟨true, true⟩ ("t") c2_pages).1.events).getD
              (k + 1) [])
      ∧ ((⟨true, true⟩ : ExtractOptions).thumbnail = true →
          (emittedThumbs (extract_pdf_data ⟨true, true⟩ ("t") c2_pages).1.events).length
            = c2_pages.length)) :=
  ⟨⟨rfl, rfl⟩, extract_dims_notifications_monotone ⟨true, true⟩ ("t") c2_pages rfl rfl⟩

/- The dims branch persists before notifying; the thumbnails branch
   notifies before persisting. -/

lemma runSpec_persist_order (options : ExtractOptions) (ts : String) :
    ∀ (pages : List PdfPage) (n : Nat) (dAcc : List (Nat × Dimensions))
      (tAcc : List (Nat × String)),
      persistThenNotifyDims
        (((runSpec options ts pages n dAcc tAcc).events).filter isDimsAction) = true
      ∧ notifyThenPersistThumbs
        (((runSpec options ts pages n dAcc tAcc).events).filter isThumbsAction) = true := by
  obtain ⟨thumb, dims⟩ := options
  intro pages
  induction pages with
  | nil => intro n dAcc tAcc; exact ⟨rfl, rfl⟩
  | cons page rest ih =>
    intro n dAcc tAcc
    obtain ⟨ph, pw, prok⟩ := page
    cases dims <;> cases thumb <;> cases prok <;>
      refine ⟨?_, ?_⟩ <;>
        simp [runSpec, List.filter, isDimsAction, isThumbsAction,
          persistThenNotifyDims, notifyThenPersistThumbs,
          (ih (n + 1) _ _).1, (ih (n + 1) _ _).2]

/-- Claim C5 counterexample: for a one-page document with both kinds
requested, the thumbnails branch emits the thumbnail notification before
writing thumbs.json, so the thumbnail actions are notify-then-persist and
the persist-before-notify pattern required by the claim fails. -/
theorem thumbs_notify_before_persist_cex :
    (extract_pdf_data ⟨true, true⟩ ("t") [⟨3, 3, true⟩]).1.events.filter isThumbsAction
      = [ExtractEvent.emitThumbs [(1, thumbName ("t") 1)],
         ExtractEvent.writeThumbs [(1, thumbName ("t") 1)]]
    ∧ persistThenNotifyThumbs
        ((extract_pdf_data ⟨true, true⟩ ("t") [⟨3, 3, true⟩]).1.events.filter isThumbsAction)
      = false
    ∧ persistThenNotifyDims
        ((extract_pdf_data ⟨true, true⟩ ("t") [⟨3, 3, true⟩]).1.events.filter isDimsAction)
      = true :=
  ⟨rfl, rfl, rfl⟩

/-- Claim C5 (amended): for every page the dimensions branch persists the
entire updated accumulator to the dimensions file and only then notifies
observers; the thumbnails branch instead notifies observers first and then
persists the accumulator to the thumbnails file — each kind's actions form
consecutive pairs carrying the same snapshot, write-then-emit for
dimensions, emit-then-write for thumbnails. -/
theorem persist_notify_order (options : ExtractOptions) (ts : String) (pages : List PdfPage) :
    persistThenNotifyDims
      ((extract_pdf_data options ts pages).1.events.filter isDimsAction) = true
    ∧ notifyThenPersistThumbs
      ((extract_pdf_data options ts pages).1.events.filter isThumbsAction) = true := by
  obtain ⟨thumb, dims⟩ := options
  cases thumb with
  | false =>
    cases dims with
    | false => exact ⟨rfl, rfl⟩
    | true =>
      rw [extract_eq_runSpec ⟨false, true⟩ ts pages (Or.inl rfl)]
      simp only [assembleState, initExtractState, List.nil_append]
      exact runSpec_persist_order ⟨false, true⟩ ts pages 1 [] []
  | true =>
    rw [extract_eq_runSpec ⟨true, dims⟩ ts pages (Or.inr rfl)]
    simp only [assembleState, initExtractState, List.nil_append]
    exact runSpec_persist_order ⟨true, dims⟩ ts pages 1 [] []

/- third_as_i32 is exactly truncation toward zero of q / 3; for q ≥ 0 that
   is the floor of the true rational quotient. -/

lemma third_as_i32_eq_floor (q : ℚ) (hq : 0 ≤ q) : third_as_i32 q = ⌊q / 3⌋ := by
  have h3 : q / 3 = (q.num : ℚ) / ((3 * q.den : ℕ) : ℚ) := by
    conv_lhs => rw [← Rat.num_div_den q]
    push_cast
    rw [div_div, mul_comm (q.den : ℚ) 3]
  rw [third_as_i32, h3, Rat.floor_intCast_div_natCast]
  rw [Int.tdiv_eq_ediv (Rat.num_nonneg.mpr hq) (by positivity)]
  norm_cast

lemma third_as_i32_spec (q : ℚ) (hq : 0 ≤ q) :
    ((third_as_i32 q : ℚ) ≤ q / 3 ∧ q / 3 < third_as_i32 q + 1) ∧ 0 ≤ third_as_i32 q := by
  rw [third_as_i32_eq_floor q hq]
  refine ⟨⟨Int.floor_le _, ?_⟩, Int.floor_nonneg.mpr (by positivity)⟩
  have h := Int.lt_floor_add_one (q / 3)
  push_cast at h ⊢
  exact h

/- Every render call in a run targets a third of the corresponding page's
   size. -/

lemma runSpec_renderPage_mem (options : ExtractOptions) (ts : String) :
    ∀ (pages : List PdfPage) (n : Nat) (dAcc : List (Nat × Dimensions))
      (tAcc : List (Nat × String)) (p : Nat) (tw th : Int),
      ExtractEvent.renderPage p tw th ∈ (runSpec options ts pages n dAcc tAcc).events →
      ∃ i, ∃ page : PdfPage, pages[i]? = some page ∧ p = n + i
        ∧ tw = third_as_i32 page.width ∧ th = third_as_i32 page.height := by
  obtain ⟨thumb, dims⟩ := options
  intro pages
  induction pages with
  | nil => intro n dAcc tAcc p tw th h; cases h
  | cons page rest ih =>
    intro n dAcc tAcc p tw th h
    obtain ⟨ph, pw, prok⟩ := page
    cases thumb with
    | false =>
      have h2 : ExtractEvent.renderPage p tw th ∈
          (runSpec ⟨false, dims⟩ ts rest (n + 1)
            (match dims with
             | true => dAcc ++ [(n, ⟨ph, pw⟩)]
             | false => dAcc) tAcc).events := by
        cases dims with
        | true =>
          simp only [runSpec, List.append_eq, List.cons_append, List.nil_append, List.mem_cons] at h
          rcases h with h | h | h
          · exact absurd h (by simp)
          · exact absurd h (by simp)
          · exact h
        | false =>
          simp only [runSpec, List.nil_append] at h
          exact h
      rcases ih _ _ _ _ _ _ h2 with ⟨i, pg, h1, hp, h3, h4⟩
      exact ⟨i + 1, pg, by simpa using h1, by omega, h3, h4⟩
    | true =>
      cases prok with
      | true =>
        have h2 : (p = n ∧ tw = third_as_i32 pw ∧ th = third_as_i32 ph)
            ∨ ExtractEvent.renderPage p tw th ∈
              (runSpec ⟨true, dims⟩ ts rest (n + 1)
                (match dims with
                 | true => dAcc ++ [(n, ⟨ph, pw⟩)]
                 | false => dAcc)
                (tAcc ++ [(n, thumbName ts n)])).events := by
          cases dims with
          | true =>
            simp only [runSpec, List.append_eq, List.cons_append, List.nil_append, List.mem_cons] at h
            rcases h with h | h | h | h | h | h | h
            · exact absurd h (by simp)
            · exact absurd h (by simp)
            · left
              rw [ExtractEvent.renderPage.injEq] at h
              exact h
            · exact absurd h (by simp)
            · exact absurd h (by simp)
            · exact absurd h (by simp)
            · exact Or.inr h
          | false =>
            simp only [runSpec, List.append_eq, List.cons_append, List.nil_append, List.mem_cons] at h
            rcases h with h | h | h | h | h
            · left
              rw [ExtractEvent.renderPage.injEq] at h
              exact h
            · exact absurd h (by simp)
            · exact absurd h (by simp)
            · exact absurd h (by simp)
            · exact Or.inr h
        rcases h2 with ⟨rfl, rfl, rfl⟩ | h2
        · exact ⟨0, ⟨ph, pw, true⟩, by simp, by omega, rfl, rfl⟩
        · rcases ih _ _ _ _ _ _ h2 with ⟨i, pg, h1, hp, h3, h4⟩
          exact ⟨i + 1, pg, by simpa using h1, by omega, h3, h4⟩
      | false =>
        have h2 : p = n ∧ tw = third_as_i32 pw ∧ th = third_as_i32 ph := by
          cases dims with
          | true =>
            simp only [runSpec, List.append_eq, List.cons_append, List.nil_append, List.mem_cons,
              List.not_mem_nil, or_false] at h
            rcases h with h | h | h
            · exact absurd h (by simp)
            · exact absurd h (by simp)
            · rw [ExtractEvent.renderPage.injEq] at h
              exact h
          | false =>
            simp only [runSpec, List.append_eq, List.cons_append, List.nil_append, List.mem_cons,
              List.not_mem_nil, or_false] at h
            rw [ExtractEvent.renderPage.injEq] at h
            exact h
        rcases h2 with ⟨rfl, rfl, rfl⟩
        exact ⟨0, ⟨ph, pw, false⟩, by simp, by omega, rfl, rfl⟩

lemma renderPage_size_aux (options : ExtractOptions) (ts : String) (pages : List PdfPage)
    (hpos : ∀ page ∈ pages, 0 ≤ page.height ∧ 0 ≤ page.width)
    (p : Nat) (tw th : Int)
    (hmem : ExtractEvent.renderPage p tw th ∈ (runSpec options ts pages 1 [] []).events) :
    ∃ page : PdfPage, pages[p - 1]? = some page ∧ 1 ≤ p
      ∧ ((tw : ℚ) ≤ page.width / 3 ∧ page.width / 3 < tw + 1 ∧ 0 ≤ tw)
      ∧ ((th : ℚ) ≤ page.height / 3 ∧ page.height / 3 < th + 1 ∧ 0 ≤ th) := by
  rcases runSpec_renderPage_mem options ts pages 1 [] [] p tw th hmem with
    ⟨i, pg, h1, hp, h3, h4⟩
  have hmempg : pg ∈ pages := by
    have : pages[i]? = some pg := h1
    exact List.getElem?_mem this
  rcases hpos pg hmempg with ⟨hh, hw⟩
  have hwspec := third_as_i32_spec pg.width hw
  have hhspec := third_as_i32_spec pg.height hh
  subst hp h3 h4
  refine ⟨pg, by simpa using h1, by omega, ?_, ?_⟩
  · exact ⟨hwspec.1.1, hwspec.1.2, hwspec.2⟩
  · exact ⟨hhspec.1.1, hhspec.1.2, hhspec.2⟩

/-- Claim C9: when thumbnails are requested, for every page the target
raster size passed to the renderer is the page's (height/3, width/3) with
each component rounded toward zero to an integer: for a render call on
page p with arguments (w, h), page p satisfies w ≤ width/3 < w+1 and
h ≤ height/3 < h+1 with w, h nonnegative integers (pages have nonnegative
sizes). -/
theorem thumbnail_render_size (options : ExtractOptions) (ts : String) (pages : List PdfPage)
    (hpos : ∀ page ∈ pages, 0 ≤ page.height ∧ 0 ≤ page.width)
    (p : Nat) (tw th : Int)
    (hmem : ExtractEvent.renderPage p tw th ∈ (extract_pdf_data options ts pages).1.events) :
    ∃ page : PdfPage, pages[p - 1]? = some page ∧ 1 ≤ p
      ∧ ((tw : ℚ) ≤ page.width / 3 ∧ page.width / 3 < tw + 1 ∧ 0 ≤ tw)
      ∧ ((th : ℚ) ≤ page.height / 3 ∧ page.height / 3 < th + 1 ∧ 0 ≤ th) := by
  obtain ⟨thumb, dims⟩ := options
  cases thumb with
  | false =>
    cases dims with
    | false => simp [extract_pdf_data, initExtractState] at hmem
    | true =>
      rw [extract_eq_runSpec ⟨false, true⟩ ts pages (Or.inl rfl)] at hmem
      simp only [assembleState, initExtractState, List.nil_append] at hmem
      exact renderPage_size_aux ⟨false, true⟩ ts pages hpos p tw th hmem
  | true =>
    rw [extract_eq_runSpec ⟨true, dims⟩ ts pages (Or.inr rfl)] at hmem
    simp only [assembleState, initExtractState, List.nil_append] at hmem
    exact renderPage_size_aux ⟨true, dims⟩ ts pages hpos p tw th hmem

/-- Witness for the claim C9 theorem: the render call of a one-page
document with size 12 by 9 targets width 3 and height 4. -/
theorem thumbnail_render_size_witness :
    (∀ page ∈ ([⟨12, 9, true⟩] : List PdfPage), 0 ≤ page.height ∧ 0 ≤ page.width)
    ∧ ExtractEvent.renderPage 1 3 4
        ∈ (extract_pdf_data ⟨true, true⟩ ("t") [⟨12, 9, true⟩]).1.events
    ∧ (∃ page : PdfPage, ([⟨12, 9, true⟩] : List PdfPage)[1 - 1]? = some page ∧ 1 ≤ 1
        ∧ (((3 : Int) : ℚ) ≤ page.width / 3 ∧ page.width / 3 < (3 : Int) + 1 ∧ 0 ≤ (3 : Int))
        ∧ (((4 : Int) : ℚ) ≤ page.height / 3 ∧ page.height / 3 < (4 : Int) + 1
            ∧ 0 ≤ (4 : Int))) :=
  ⟨by decide, by decide,
   thumbnail_render_size ⟨true, true⟩ ("t") [⟨12, 9, true⟩] (by decide) 1 3 4 (by decide)⟩

/- A run over good pages followed by a failing page: everything up to and
   including the failing page's dimensions is committed, thumbnails only up
   to the page before, and the error aborts the rest. -/

lemma runSpec_fail (ts : String) (bh bw : ℚ) (after : List PdfPage) :
    ∀ (good : List PdfPage) (n : Nat) (dAcc : List (Nat × Dimensions))
      (tAcc : List (Nat × String)), (∀ p ∈ good, p.renderOk = true) →
      (runSpec ⟨true, true⟩ ts (good ++ ⟨bh, bw, false⟩ :: after) n dAcc tAcc).err
          = some ("render error")
      ∧ (runSpec ⟨true, true⟩ ts (good ++ ⟨bh, bw, false⟩ :: after) n dAcc tAcc).dimsAcc
          = dAcc ++ dimsEntries n (good ++ [⟨bh, bw, false⟩])
      ∧ (runSpec ⟨true, true⟩ ts (good ++ ⟨bh, bw, false⟩ :: after) n dAcc tAcc).thumbsAcc
          = tAcc ++ thumbEntries ts n good
      ∧ (runSpec ⟨true, true⟩ ts (good ++ ⟨bh, bw, false⟩ :: after) n dAcc tAcc).dimsWritten
          = true
      ∧ (runSpec ⟨true, true⟩ ts (good ++ ⟨bh, bw, false⟩ :: after) n dAcc tAcc).thumbsWritten
          = !good.isEmpty
      ∧ emittedDims (runSpec ⟨true, true⟩ ts (good ++ ⟨bh, bw, false⟩ :: after) n dAcc
            tAcc).events
          = snapshotsOf dAcc (dimsEntries n (good ++ [⟨bh, bw, false⟩]))
      ∧ emittedThumbs (runSpec ⟨true, true⟩ ts (good ++ ⟨bh, bw, false⟩ :: after) n dAcc
            tAcc).events
          = snapshotsOf tAcc (thumbEntries ts n good) := by
  intro good
  induction good with
  | nil =>
    intro n dAcc tAcc _
    refine ⟨rfl, ?_, ?_, rfl, rfl, ?_, rfl⟩
    · simp [runSpec, dimsEntries]
    · simp [runSpec, thumbEntries]
    · simp only [List.nil_append, runSpec, List.cons_append, dimsEntries, thumbEntries,
        snapshotsOf, emittedDims_writeDims, emittedDims_emitDims, emittedDims_renderPage,
        emittedDims_nil]
  | cons g good2 ih =>
    intro n dAcc tAcc hgood
    obtain ⟨gh, gw, grok⟩ := g
    have hg : grok = true := hgood ⟨gh, gw, grok⟩ (List.mem_cons_self _ _)
    subst hg
    have hgood2 : ∀ p ∈ good2, p.renderOk = true :=
      fun p hp => hgood p (List.mem_cons_of_mem _ hp)
    rcases ih (n + 1) (dAcc ++ [(n, ⟨gh, gw⟩)]) (tAcc ++ [(n, thumbName ts n)]) hgood2 with
      ⟨h1, h2, h3, h4, h5, h6, h7⟩
    refine ⟨?_, ?_, ?_, ?_, ?_, ?_, ?_⟩
    · simpa only [runSpec, List.cons_append] using h1
    · simp only [runSpec, List.append_eq, List.cons_append]
      rw [h2]
      simp [dimsEntries, List.append_assoc]
    · simp only [runSpec, List.append_eq, List.cons_append]
      rw [h3]
      simp [thumbEntries, List.append_assoc]
    · simp only [runSpec, List.append_eq, List.cons_append, Bool.true_or]
    · simp only [runSpec, List.append_eq, List.cons_append, List.isEmpty_cons, Bool.not_false]
    · simp only [runSpec, List.append_eq, List.cons_append, List.nil_append, emittedDims_writeDims,
        emittedDims_emitDims, emittedDims_renderPage, emittedDims_writeImage,
        emittedDims_emitThumbs, emittedDims_writeThumbs, dimsEntries, snapshotsOf]
      rw [h6]
    · simp only [runSpec, List.append_eq, List.cons_append, List.nil_append, emittedThumbs_writeDims,
        emittedThumbs_emitDims, emittedThumbs_renderPage, emittedThumbs_writeImage,
        emittedThumbs_emitThumbs, emittedThumbs_writeThumbs, thumbEntries, snapshotsOf]
      rw [h7]

/-- Claim C3: with both artifact kinds requested, if rendering page k fails
(k = good.length + 1, all earlier pages succeeding), the pipeline aborts the
remaining pages and surfaces the error; artifacts already committed for
pages before k are retained unchanged — the thumbnails file holds exactly
pages 1..k-1 (and does not exist when k = 1) — and the persisted dimensions
file then contains exactly pages 1..k; exactly k dimension and k-1
thumbnail notifications were emitted. -/
theorem extract_abort_retains_partial (ts : String) (good : List PdfPage)
    (bh bw : ℚ) (after : List PdfPage)
    (hgood : ∀ p ∈ good, p.renderOk = true) :
    (extract_pdf_data ⟨true, true⟩ ts (good ++ ⟨bh, bw, false⟩ :: after)).2
        = some ("render error")
    ∧ (∃ m, (extract_pdf_data ⟨true, true⟩ ts (good ++ ⟨bh, bw, false⟩ :: after)).1.dimsFile
          = some m
        ∧ (∀ p : Nat, (p ∈ m.map Prod.fst) ↔ (1 ≤ p ∧ p ≤ good.length + 1)))
    ∧ (good.isEmpty = true →
        (extract_pdf_data ⟨true, true⟩ ts (good ++ ⟨bh, bw, false⟩ :: after)).1.thumbsFile
          = none)
    ∧ (good.isEmpty = false →
        ∃ m, (extract_pdf_data ⟨true, true⟩ ts
              (good ++ ⟨bh, bw, false⟩ :: after)).1.thumbsFile = some m
          ∧ (∀ p : Nat, (p ∈ m.map Prod.fst) ↔ (1 ≤ p ∧ p ≤ good.length)))
    ∧ (emittedDims (extract_pdf_data ⟨true, true⟩ ts
          (good ++ ⟨bh, bw, false⟩ :: after)).1.events).length = good.length + 1
    ∧ (emittedThumbs (extract_pdf_data ⟨true, true⟩ ts
          (good ++ ⟨bh, bw, false⟩ :: after)).1.events).length = good.length := by
  rw [extract_eq_runSpec ⟨true, true⟩ ts (good ++ ⟨bh, bw, false⟩ :: after) (Or.inl rfl)]
  rcases runSpec_fail ts bh bw after good 1 [] [] hgood with ⟨h1, h2, h3, h4, h5, h6, h7⟩
  simp only [assembleState, initExtractState, List.nil_append]
  refine ⟨h1, ?_, ?_, ?_, ?_, ?_⟩
  · refine ⟨dimsEntries 1 (good ++ [⟨bh, bw, false⟩]), ?_, ?_⟩
    · rw [h4, h2, List.nil_append, cond_true]
    · intro p
      rw [dimsEntries_mem_fst]
      simp only [List.length_append, List.length_cons, List.length_nil]
      omega
  · intro hemp
    rw [h5, hemp, Bool.not_true, cond_false]
  · intro hemp
    refine ⟨thumbEntries ts 1 good, ?_, ?_⟩
    · rw [h5, hemp, Bool.not_false, h3, List.nil_append, cond_true]
    · intro p
      rw [thumbEntries_mem_fst]
      omega
  · rw [h6, snapshotsOf_length, dimsEntries_length, List.length_append, List.length_cons,
      List.length_nil]
  · rw [h7, snapshotsOf_length, thumbEntries_length]

/-- Witness for the claim C3 theorem: one good page, then a failing page,
then one more page; the dims file holds pages 1..2, the thumbs file page 1,
and the error is surfaced. -/
theorem extract_abort_retains_partial_witness :
    (∀ p ∈ ([⟨12, 9, true⟩] : List PdfPage), p.renderOk = true)
    ∧ ((extract_pdf_data ⟨true, true⟩ ("t")
          ([⟨12, 9, true⟩] ++ ⟨6, 3, false⟩ :: [⟨6, 3, true⟩])).2 = some ("render error")
      ∧ (∃ m, (extract_pdf_data ⟨true, true⟩ ("t")
            ([⟨12, 9, true⟩] ++ ⟨6, 3, false⟩ :: [⟨6, 3, true⟩])).1.dimsFile = some m
          ∧ (∀ p : Nat, (p ∈ m.map Prod.fst) ↔
              (1 ≤ p ∧ p ≤ ([⟨12, 9, true⟩] : List PdfPage).length + 1)))
      ∧ (([⟨12, 9, true⟩] : List PdfPage).isEmpty = true →
          (extract_pdf_data ⟨true, true⟩ ("t")
            ([⟨12, 9, true⟩] ++ ⟨6, 3, false⟩ :: [⟨6, 3, true⟩])).1.thumbsFile = none)
      ∧ (([⟨12, 9, true⟩] : List PdfPage).isEmpty = false →
          ∃ m, (extract_pdf_data ⟨true, true⟩ ("t")
              ([⟨12, 9, true⟩] ++ ⟨6, 3, false⟩ :: [⟨6, 3, true⟩])).1.thumbsFile = some m
            ∧ (∀ p : Nat, (p ∈ m.map Prod.fst) ↔
                (1 ≤ p ∧ p ≤ ([⟨12, 9, true⟩] : List PdfPage).length)))
      ∧ (emittedDims (extract_pdf_data ⟨true, true⟩ ("t")
            ([⟨12, 9, true⟩] ++ ⟨6, 3, false⟩ :: [⟨6, 3, true⟩])).1.events).length
          = ([⟨12, 9, true⟩] : List PdfPage).length + 1
      ∧ (emittedThumbs (extract_pdf_data ⟨true, true⟩ ("t")
            ([⟨12, 9, true⟩] ++ ⟨6, 3, false⟩ :: [⟨6, 3, true⟩])).1.events).length
          = ([⟨12, 9, true⟩] : List PdfPage).length) :=
  ⟨by decide,
   extract_abort_retains_partial ("t") [⟨12, 9, true⟩] 6 3 [⟨6, 3, true⟩] (by decide)⟩

end Akda
